import Mathlib

/-!
Shallow embedding of the erina-integrater webhook/callback handlers:
the signed-callback verifier, the amount-normalization helper, the
redirect-following POST helper, the tag ledger, the callback reconciler
(src/unnamed/part_000) and the payment-link issuance handler
(src/app/routes/webhooks.orders_create.procard.js), together with
theorems checking the specification's claims against these definitions.

JavaScript numbers are modelled by decimal representations
(mantissa × 10^exponent) plus a non-finite marker: the only numeric
operations the embedded code performs are Number(·) coercion of decimal
strings, Number.isFinite, and Number.prototype.toString, and on that
fragment the decimal model agrees with IEEE doubles observably (parsing
a decimal literal and printing the shortest round-trip form reproduces
the literal's canonical decimal form).  External collaborators (the HMAC
primitive of node:crypto, the HTTP transport, the order platform, the
shipping intake) enter as explicit function parameters or oracle
records; the order platform's order store is a passed-around `Store`
value so that tag updates are observable across runs.  All recursion is
structural (fuel-driven where the source loops on data) so the kernel
can evaluate every definition on concrete inputs.
-/

namespace Erina

/-! ### JS values and numbers: decimal model -/

/-- A JavaScript number: either non-finite (NaN or ±Infinity — the code
only ever tests these with `Number.isFinite`) or a finite decimal value
`m * 10^e`.  Representations are not required to be canonical;
`jsNumToString` canonicalizes before printing, mirroring the shortest
round-trip decimal form produced by `Number.prototype.toString`. -/
inductive JSNum where
  | nonFinite : JSNum
  | finite (m : Int) (e : Int) : JSNum
deriving DecidableEq

/-- A JavaScript value as far as the embedded handlers inspect one. -/
inductive JSValue where
  | undef : JSValue
  | null : JSValue
  | num (n : JSNum) : JSValue
  | str (s : String) : JSValue
deriving DecidableEq

/-- Decimal digit character for a digit value below ten. -/
def digitChar : Nat → Char
  | 0 => '0' | 1 => '1' | 2 => '2' | 3 => '3' | 4 => '4'
  | 5 => '5' | 6 => '6' | 7 => '7' | 8 => '8' | 9 => '9'
  | _ => '?'

/-- Numeric value of a decimal digit character. -/
def digitVal (c : Char) : Nat := c.toNat - 48

/-- Decimal digit test (the model's own predicate, matching '0'..'9'). -/
def isDigitCh (c : Char) : Bool :=
  c = '0' || c = '1' || c = '2' || c = '3' || c = '4' ||
  c = '5' || c = '6' || c = '7' || c = '8' || c = '9'

/-- Whitespace test used by the `Number(·)` model's trimming. -/
def isWspCh (c : Char) : Bool :=
  c = ' ' || c = '\t' || c = '\n' || c = '\r'

/-- Little-endian digit characters, by fuel-driven division by ten
(structural recursion so that the kernel can evaluate it; any fuel of at
least the digit count gives the same result). -/
def natDigitCharsAux : Nat → Nat → List Char
  | 0, _ => []
  | fuel + 1, n =>
    if n = 0 then [] else digitChar (n % 10) :: natDigitCharsAux fuel (n / 10)

/-- Big-endian decimal digit characters of a natural number. -/
def natDigitChars (n : Nat) : List Char :=
  if n = 0 then ['0'] else (natDigitCharsAux n n).reverse

/-- Value of a big-endian list of digit characters. -/
def valueOfDigits (cs : List Char) : Nat :=
  cs.foldl (fun a c => 10 * a + digitVal c) 0

/-- Fuel-driven stripping of factors of ten (structural recursion).
`stripTensAux fuel m = (a, k)` with `m = a * 10^k` and `10 ∤ a`
whenever `m ≠ 0` and `m ≤ fuel`. -/
def stripTensAux : Nat → Nat → Nat × Nat
  | 0, m => (m, 0)
  | fuel + 1, m =>
    if m % 10 = 0 && m != 0 then
      let p := stripTensAux fuel (m / 10)
      (p.1, p.2 + 1)
    else (m, 0)

/-- Strip all factors of ten from a positive natural number. -/
def stripTens (m : Nat) : Nat × Nat := stripTensAux m m

/-- Canonical decimal representation: zero is `(0, 0)`, otherwise the
mantissa carries the sign and is not divisible by ten. -/
def canonPair (m : Int) (e : Int) : Int × Int :=
  if m = 0 then (0, 0)
  else
    let p := stripTens m.natAbs
    (if m < 0 then -(p.1 : Int) else (p.1 : Int), e + (p.2 : Int))

/-- Digit characters (no sign) of a canonical pair `(a, f)` with `a` the
mantissa's absolute value: plain integer digits when `f ≥ 0`, otherwise
a decimal point is inserted `-f` digits from the right. -/
def printDecCore (a : Nat) (f : Int) : List Char :=
  if 0 ≤ f then natDigitChars (a * 10 ^ f.toNat)
  else
    let k := (-f).toNat
    let ds := natDigitChars a
    if k < ds.length then ds.take (ds.length - k) ++ '.' :: ds.drop (ds.length - k)
    else '0' :: '.' :: (List.replicate (k - ds.length) '0' ++ ds)

/-- Characters of the decimal string of the finite value `m * 10^e`. -/
def numToChars (m : Int) (e : Int) : List Char :=
  let c := canonPair m e
  (if c.1 < 0 then ['-'] else []) ++ printDecCore c.1.natAbs c.2

/-- Model of `Number.prototype.toString` on the decimal numbers.  Non-finite values
are collapsed to "NaN" (the embedded code never stringifies one: the
`Number.isFinite` guard normalizes them to "0" first). -/
def jsNumToString (n : JSNum) : String :=
  match n with
  | .nonFinite => "NaN"
  | .finite m e => ⟨numToChars m e⟩

/-- Take the longest prefix of decimal digit characters. -/
def takeDigits : List Char → List Char × List Char
  | [] => ([], [])
  | c :: cs =>
    if isDigitCh c then
      let p := takeDigits cs
      (c :: p.1, p.2)
    else ([], c :: cs)

/-- Read an optional leading sign. -/
def readSign : List Char → Bool × List Char
  | [] => (false, [])
  | c :: r =>
    if c = '-' then (true, r)
    else if c = '+' then (false, r)
    else (false, c :: r)

/-- Read an optional fractional part (a decimal point and digits). -/
def readFrac : List Char → List Char × List Char
  | [] => ([], [])
  | c :: r => if c = '.' then takeDigits r else ([], c :: r)

/-- Read an optional exponent part; `none` when the trailing characters
do not form a well-formed (possibly signed) exponent. -/
def readExp : List Char → Option Int
  | [] => some 0
  | c :: r =>
    if c = 'e' || c = 'E' then
      let s := readSign r
      let p := takeDigits s.2
      if p.1.isEmpty || !p.2.isEmpty then none
      else some (if s.1 then -(valueOfDigits p.1 : Int) else (valueOfDigits p.1 : Int))
    else none

/-- Strip leading and trailing whitespace. -/
def trimChars (l : List Char) : List Char :=
  ((l.dropWhile isWspCh).reverse.dropWhile isWspCh).reverse

/-- Model of `Number(·)` applied to a string, on the decimal fragment: whitespace
trimming, the empty string coercing to zero, an optional sign, integer
and fractional digits and an optional exponent.  Anything else (hex or
binary literals, "Infinity", garbage) is non-finite here; `Infinity` is
conflated with NaN since the code only ever asks `Number.isFinite`. -/
def parseNumChars (cs : List Char) : JSNum :=
  let t := trimChars cs
  if t.isEmpty then .finite 0 0
  else
    let sg := readSign t
    let ip := takeDigits sg.2
    let fp := readFrac ip.2
    if ip.1.isEmpty && fp.1.isEmpty then .nonFinite
    else
      match readExp fp.2 with
      | none => .nonFinite
      | some ex =>
        let mant : Int := (valueOfDigits (ip.1 ++ fp.1) : Nat)
        .finite (if sg.1 then -mant else mant) (ex - (fp.1.length : Int))

/-- Model of the `Number(·)` coercion of a JS value (undefined → NaN, null → 0). -/
def jsNumber (v : JSValue) : JSNum :=
  match v with
  | .undef => .nonFinite
  | .null => .finite 0 0
  | .num n => n
  | .str s => parseNumChars s.data

/-- Model of the `String(·)` coercion of a JS value. -/
def jsToString (v : JSValue) : String :=
  match v with
  | .undef => "undefined"
  | .null => "null"
  | .num n => jsNumToString n
  | .str s => s

/-- JS truthiness of a value in the model. -/
def truthy (v : JSValue) : Bool :=
  match v with
  | .undef => false
  | .null => false
  | .num .nonFinite => false
  | .num (.finite m _) => m != 0
  | .str s => !s.isEmpty

/-- ASCII upper-casing (model of `String.prototype.toUpperCase` on the
ASCII statuses the code compares, e.g. "paid"/"PAID"). -/
def asciiUpperChar (c : Char) : Char :=
  if 'a' ≤ c ∧ c ≤ 'z' then Char.ofNat (c.toNat - 32) else c

/-- ASCII upper-casing of a string. -/
def asciiUpper (s : String) : String := ⟨s.data.map asciiUpperChar⟩

/-- ASCII lower-casing (model of `String.prototype.toLowerCase` on the
ASCII gateway labels the code compares). -/
def asciiLowerChar (c : Char) : Char :=
  if 'A' ≤ c ∧ c ≤ 'Z' then Char.ofNat (c.toNat + 32) else c

/-- ASCII lower-casing of a string. -/
def asciiLower (s : String) : String := ⟨s.data.map asciiLowerChar⟩

/-- Embedding of `normalizeAmount` (src/unnamed/part_000 lines 6-10, duplicated in
src/unnamed/part_002 and webhooks.orders_create.procard.js):
`const n = Number(amount); if (!Number.isFinite(n)) return "0";
return n.toString();`. -/
def normalizeAmount (amount : JSValue) : String :=
  match jsNumber amount with
  | .nonFinite => "0"
  | .finite m e => jsNumToString (.finite m e)

/-! ### Signature verifier (src/unnamed/part_000, verifyCallbackSignature) -/

/-- An inbound payment callback body.  The four string fields hold the
result of the source's `String(body?.field || "")` coercion (a missing
or falsy field coerces to the empty string); `amount` stays a raw JS
value because the source applies `Number(·)` to it instead. -/
structure CallbackBody where
  merchantAccount : String
  orderReference : String
  amount : JSValue
  currency : String
  merchantSignature : String
  transactionStatus : String
deriving DecidableEq

/-- The `;`-joined signing string of part_000 line 26:
merchant-account ; order-reference ; normalized-amount ; currency. -/
def signString (b : CallbackBody) : String :=
  b.merchantAccount ++ ";" ++ b.orderReference ++ ";" ++
    normalizeAmount b.amount ++ ";" ++ b.currency

/-- Embedding of `verifyCallbackSignature` (part_000 lines 12-33).  The HMAC-SHA-512
lower-case-hex primitive of node:crypto is the function parameter
`hmacHex : secret → message → hex digest`; `secret` models
`process.env.PROCARD_SECRET`, the empty string standing for a missing or
empty variable, which makes the source throw before any comparison. -/
def verifyCallbackSignature (hmacHex : String → String → String) (secret : String)
    (b : CallbackBody) : Except String Bool :=
  if secret = "" then .error "Missing PROCARD_SECRET"
  else if b.merchantAccount = "" || b.orderReference = "" ||
      b.currency = "" || b.merchantSignature = "" then .ok false
  else .ok (hmacHex secret (signString b) == b.merchantSignature)

/-! ### RedirectingPoster (postJsonWithRedirects, part_000 lines 136-155
and part_001 lines 8-38; identical control flow) -/

/-- A raw transport response as the helper observes it: its status code
and `Location` header. -/
structure HResponse where
  status : Nat
  location : Option String
deriving DecidableEq

/-- The statuses the helper treats as redirects:
`[301, 302, 303, 307, 308].includes(res.status)`. -/
def isRedirectStatus (status : Nat) : Bool :=
  status == 301 || status == 302 || status == 303 || status == 307 || status == 308

/-- The body of the `for (let attempt = 0; attempt <= maxRedirects; ...)`
loop.  `fetchf attempt url` is the transport's response to the
`attempt`-th POST of the fixed headers/body at `url`; `resolve loc base`
models `new URL(loc, base).toString()`.  The trace accumulates the URL
of every POST issued.  Fuel only makes the recursion structural: the
`attempt ≤ maxRedirects` test is the loop condition, and both the
fuel-exhausted and condition-false exits are the source's trailing
`throw new Error("Too many redirects")`. -/
def redirectLoop (fetchf : Nat → String → HResponse) (resolve : String → String → String)
    (maxRedirects : Nat) :
    Nat → Nat → String → List String → Except String (HResponse × List String)
  | 0, _, _, _ => .error "Too many redirects"
  | fuel + 1, attempt, currentUrl, trace =>
    if attempt ≤ maxRedirects then
      let res := fetchf attempt currentUrl
      let trace := trace ++ [currentUrl]
      if isRedirectStatus res.status then
        match res.location with
        | none => .ok (res, trace)
        | some loc =>
          if attempt == maxRedirects then .ok (res, trace)
          else redirectLoop fetchf resolve maxRedirects fuel (attempt + 1)
            (resolve loc currentUrl) trace
      else .ok (res, trace)
    else .error "Too many redirects"

/-- Embedding of `postJsonWithRedirects` (default `maxRedirects` 3):
returns the final response together with the list of URLs POSTed to
(one entry per attempt). -/
def postJsonWithRedirects (fetchf : Nat → String → HResponse)
    (resolve : String → String → String) (url : String) (maxRedirects : Nat := 3) :
    Except String (HResponse × List String) :=
  redirectLoop fetchf resolve maxRedirects (maxRedirects + 1) 0 url []

/-! ### OrderTagLedger: tag-set computations -/

/-- Model of `Array.from(new Set(l))`: first occurrences survive, in order. -/
def jsSetDedup : List String → List String
  | [] => []
  | x :: xs => x :: (jsSetDedup xs).filter (fun y => y ≠ x)

/-- Model of `split(",")` on character lists (the split of `""` is `[""]`). -/
def splitOnComma : List Char → List (List Char)
  | [] => [[]]
  | c :: rest =>
    let r := splitOnComma rest
    if c = ',' then [] :: r
    else
      match r with
      | [] => [[c]]
      | h :: t => (c :: h) :: t

/-- The tag-string parse `tags.split(",").map(t => t.trim()).filter(Boolean)` of updateOrder
(webhooks.orders_create.procard.js lines 142-148). -/
def parseTagList (tags : String) : List String :=
  (((splitOnComma tags.data).map (fun cs => (⟨trimChars cs⟩ : String)))).filter
    (fun t => t ≠ "")

/-- The tag union written back by updateOrder: parse the current comma
string, append the new tags, and dedup via `new Set`. -/
def nextTagsFromString (tags : String) (newTags : List String) : List String :=
  jsSetDedup (parseTagList tags ++ newTags)

/-- Model of the `join(", ")` applied to the written tag list. -/
def joinCommaSpace : List String → String
  | [] => ""
  | [t] => t
  | t :: rest => t ++ ", " ++ joinCommaSpace rest

/-! ### CallbackReconciler (src/unnamed/part_000, action lines 294-339) -/

/-- The shipping-relevant fields of an order's full REST record.  The
remaining fields (phone, note, line items, prices, dimensions) shape
only the POST body, which the embedding folds into the shipping oracle's
transport outcome. -/
structure ShippingAddress where
  address1 : String
  city : String
  first_name : String
  last_name : String
deriving DecidableEq

/-- An order's full record as fetched by `fetchFullOrderJSONByGid`:
`shipping_address` is `none` when the record has no such field. -/
structure FullOrder where
  shipping_address : Option ShippingAddress
deriving DecidableEq

/-- An order as the platform stores it.  `name` is the order number
matched by the `name:#<orderReference>` lookup; `shippedOnce` and
`shipSkipped` are ghost fields of the model, not platform data:
`shippedOnce` records that some shipping POST for this order got a 2xx
response, `shipSkipped` that some `sendToPostOffice` invocation returned
early because required shipping fields were missing. -/
structure StoredOrder where
  name : String
  gid : String
  displayFinancialStatus : String
  tags : List String
  shippedOnce : Bool
  shipSkipped : Bool
deriving DecidableEq

/-- The order platform's store of orders. -/
structure Store where
  orders : List StoredOrder
deriving DecidableEq

/-- POSTOFFICE_* environment of sendToPostOffice ("" = unset). -/
structure PostEnv where
  baseUrl : String
  token : String
deriving DecidableEq

/-- Oracle fixing each collaborator outcome for one callback run:
`adminErr` a throw from `getOfflineAdminGraphqlClient`, `findErr` a
throw from the lookup query, `markPaidErr` a throw from
`orderMarkAsPaid` (transport or userErrors), `fetchFull` the outcome of
`fetchFullOrderJSONByGid` (`.ok none` models `json?.order || null`
being null), `shipStatus` the final status of the shipping POST chain
(`.error` a transport throw), `writeErr` a throw from
`orderUpdateTags`. -/
structure ReconcilerOracle where
  adminErr : Option String
  findErr : Option String
  markPaidErr : Option String
  fetchFull : Except String (Option FullOrder)
  shipStatus : Except String Nat
  writeErr : Option String

/-- Outbound side-effecting calls observed during a callback run.
`shipPost ok` is a POST to the shipping intake (`ok` = a 2xx final
response); `shipSkipped` is `sendToPostOffice` returning early with no
POST because shipping fields were missing; reads (order lookup, full
record fetch) appear as `fetchFullOrder` only where the reconciler's
shipping step performs them. -/
inductive Event where
  | markPaid (gid : String)
  | fetchFullOrder (gid : String)
  | shipSkipped
  | shipPost (ok : Bool)
  | writeTags (gid : String) (tags : List String)
deriving DecidableEq

/-- An HTTP response produced by a handler (`none` = null body). -/
structure HttpResponse where
  status : Nat
  body : Option String
deriving DecidableEq

/-- Embedding of `findOrderByOrderNumber`: first stored order whose number matches
the callback's order reference. -/
def findOrder (st : Store) (ref : String) : Option StoredOrder :=
  st.orders.find? (fun ord => ord.name == ref)

/-- Update the stored order with the given id. -/
def setOrder (st : Store) (gid : String) (f : StoredOrder → StoredOrder) : Store :=
  ⟨st.orders.map (fun ord => if ord.gid == gid then f ord else ord)⟩

/-- Embedding of `sendToPostOffice` (part_000 lines 200-292): env checks throw;
missing shipping fields log and return without posting; otherwise the
POST chain runs and a non-2xx final response throws. -/
def sendToPostOffice (env : PostEnv) (o : ReconcilerOracle) (fo : FullOrder) :
    Except String Unit × List Event :=
  if env.baseUrl = "" then (.error "Missing POSTOFFICE_BASE_URL", [])
  else if env.token = "" then (.error "Missing POSTOFFICE_TOKEN", [])
  else
    match fo.shipping_address with
    | none => (.ok (), [.shipSkipped])
    | some sa =>
      if sa.address1 = "" || sa.city = "" || sa.first_name = "" || sa.last_name = "" then
        (.ok (), [.shipSkipped])
      else
        match o.shipStatus with
        | .error e => (.error e, [.shipPost false])
        | .ok status =>
          if 200 ≤ status && status < 300 then (.ok (), [.shipPost true])
          else (.error "PostOffice bulk-insert failed", [.shipPost false])

/-- The shipping half of the reconciler (part_000 lines 323-332),
continued from the payment half with the store and events accumulated so
far.  Tag writes update the store only when `orderUpdateTags` does not
throw; the ghost fields record shipping outcomes. -/
def reconcileShipping (env : PostEnv) (o : ReconcilerOracle) (ord : StoredOrder)
    (tags : List String) (alreadySent : Bool) (st : Store) (ev : List Event) :
    Store × Except String HttpResponse × List Event :=
  if alreadySent then (st, .ok ⟨200, some "OK"⟩, ev)
  else
    match o.fetchFull with
    | .error _ => (st, .ok ⟨502, some "Callback failed"⟩, ev ++ [.fetchFullOrder ord.gid])
    | .ok none => (st, .ok ⟨200, some "OK"⟩, ev ++ [.fetchFullOrder ord.gid])
    | .ok (some fo) =>
      let sp := sendToPostOffice env o fo
      let ev2 := ev ++ [.fetchFullOrder ord.gid] ++ sp.2
      let st2 := if sp.2.contains (.shipPost true) then
          setOrder st ord.gid (fun x => { x with shippedOnce := true }) else st
      let st3 := if sp.2.contains .shipSkipped then
          setOrder st2 ord.gid (fun x => { x with shipSkipped := true }) else st2
      match sp.1 with
      | .error _ => (st3, .ok ⟨502, some "Callback failed"⟩, ev2)
      | .ok _ =>
        let nextTags := jsSetDedup (tags ++ ["sent_to_postoffice", "paid_procard"])
        let ev3 := ev2 ++ [.writeTags ord.gid nextTags]
        match o.writeErr with
        | some _ => (st3, .ok ⟨502, some "Callback failed"⟩, ev3)
        | none =>
          (setOrder st3 ord.gid (fun x => { x with tags := nextTags }),
            .ok ⟨200, some "OK"⟩, ev3)

/-- The callback route's `action` (part_000 lines 294-339).  `body?` is
the result of `request.json().catch(() => null)`.  A `.error` result is
a throw that escapes the handler (only the missing-secret throw of
`verifyCallbackSignature`, which runs outside the try block); every
throw inside the try block is caught and answered with 502.  On
`orderMarkAsPaid` success the platform's financial status becomes
"PAID" (the collaborator's documented effect). -/
def runCallback (hmacHex : String → String → String) (secret : String) (env : PostEnv)
    (o : ReconcilerOracle) (st : Store) (body? : Option CallbackBody) :
    Store × Except String HttpResponse × List Event :=
  match body? with
  | none => (st, .ok ⟨400, some "Bad JSON"⟩, [])
  | some body =>
    match verifyCallbackSignature hmacHex secret body with
    | .error e => (st, .error e, [])
    | .ok false => (st, .ok ⟨401, some "Invalid signature"⟩, [])
    | .ok true =>
      let status := body.transactionStatus
      let orderRef := body.orderReference
      if orderRef = "" then (st, .ok ⟨400, some "Missing orderReference"⟩, [])
      else if status ≠ "Approved" then (st, .ok ⟨200, some "OK"⟩, [])
      else
        match o.adminErr with
        | some _ => (st, .ok ⟨502, some "Callback failed"⟩, [])
        | none =>
          match o.findErr with
          | some _ => (st, .ok ⟨502, some "Callback failed"⟩, [])
          | none =>
            match findOrder st orderRef with
            | none => (st, .ok ⟨404, some "Order not found"⟩, [])
            | some ord =>
              if ord.gid = "" then (st, .ok ⟨404, some "Order not found"⟩, [])
              else
                let tags := ord.tags
                let alreadySent := tags.contains "sent_to_postoffice"
                let alreadyPaid := asciiUpper ord.displayFinancialStatus == "PAID"
                if alreadyPaid then
                  reconcileShipping env o ord tags alreadySent st []
                else
                  match o.markPaidErr with
                  | some _ => (st, .ok ⟨502, some "Callback failed"⟩, [.markPaid ord.gid])
                  | none =>
                    reconcileShipping env o ord tags alreadySent
                      (setOrder st ord.gid
                        (fun x => { x with displayFinancialStatus := "PAID" }))
                      [.markPaid ord.gid]

/-! ### PaymentLinkIssuer (webhooks.orders_create.procard.js, action) -/

/-- The order-created payload fields the handler reads.  String fields
hold the source's coercion results; price candidates stay raw JS values
for `getOrderTotal`'s `Number(·)` probing. -/
structure Payload where
  id : JSValue
  name : JSValue
  payment_gateway_names : List String
  current_total_price : JSValue
  total_price : JSValue
  current_total_price_set_amount : JSValue
  total_price_set_amount : JSValue
deriving DecidableEq

/-- PROCARD_* environment of the issuance handler ("" = unset). -/
structure CreateEnv where
  dispatcherUrl : String
  merchantId : String
  callbackUrl : String
  approveUrl : String
  declineUrl : String
  cancelUrl : String
deriving DecidableEq

/-- The dispatcher's parsed JSON body (`result`/`url` may be absent). -/
structure DispatchJson where
  result : Option Int
  url : Option String
deriving DecidableEq

/-- The dispatcher's transport response: `ok` is `res.ok` (2xx), `json`
is `res.json().catch(() => null)`. -/
structure DispatchResp where
  ok : Bool
  json : Option DispatchJson
deriving DecidableEq

/-- An order's REST record as updateOrder re-fetches it. -/
structure OrderRest where
  tags : String
  note_attributes : List (String × String)
deriving DecidableEq

/-- Oracle fixing each collaborator outcome for one order-created run:
`dispatch` the dispatcher fetch (`.error` = transport throw),
`fetchOrderRest` updateOrder's GET of the current record, `putOrderErr`
a throw from its PUT, `sendInvoiceErr` a throw from the invoice-email
POST. -/
structure CreateOracle where
  dispatch : Except String DispatchResp
  fetchOrderRest : Except String (Option OrderRest)
  putOrderErr : Option String
  sendInvoiceErr : Option String

/-- Outbound side-effecting calls of the issuance handler. -/
inductive CEvent where
  | dispatched
  | updatedOrder (tags : List String) (noteAttrs : List (String × String))
  | sentInvoice
deriving DecidableEq

/-- Embedding of `isManualPayment` (webhooks.orders_create.procard.js lines 90-100):
lower-cased gateway names matched against the manual allow-list. -/
def isManualPayment (names : List String) : Bool :=
  let ls := names.map asciiLower
  ls.contains "manual" || ls.contains "pay by card (email)" || ls.contains "pay by card"

/-- Embedding of `getOrderTotal`: first finite `Number(·)` among the price
candidates, else 0.  Absent fields enter as `.undef`. -/
def getOrderTotal (p : Payload) : JSNum :=
  match jsNumber p.current_total_price with
  | .finite m e => .finite m e
  | .nonFinite =>
    match jsNumber p.total_price with
    | .finite m e => .finite m e
    | .nonFinite =>
      match jsNumber p.current_total_price_set_amount with
      | .finite m e => .finite m e
      | .nonFinite =>
        match jsNumber p.total_price_set_amount with
        | .finite m e => .finite m e
        | .nonFinite => .finite 0 0

/-- Embedding of `makeRequestSignature`: HMAC over
merchant ; order ; normalized amount ; currency-iso ; description. -/
def makeRequestSignature (hmacHex : String → String → String) (secret : String)
    (merchantId orderId : String) (amount : JSValue) (currencyIso description : String) :
    Except String String :=
  if secret = "" then .error "Missing PROCARD_SECRET"
  else .ok (hmacHex secret (merchantId ++ ";" ++ orderId ++ ";" ++ normalizeAmount amount
    ++ ";" ++ currencyIso ++ ";" ++ description))

/-- The guard `json?.result !== 0 || !json?.url` (line 259): the dispatcher
response is treated as rejected when the parsed body is null, its result
code is absent or non-zero, or its url is absent or empty. -/
def dispatchRejected (j : Option DispatchJson) : Bool :=
  match j with
  | none => true
  | some dj =>
    (match dj.result with
      | some r => r != 0
      | none => true) ||
    (match dj.url with
      | some u => u = ""
      | none => true)

/-- The payment URL `String(json.url)`; only evaluated on the non-rejected path, where
the url is a nonempty string. -/
def dispatchUrl (j : Option DispatchJson) : String :=
  match j with
  | some dj =>
    match dj.url with
    | some u => u
    | none => "undefined"
  | none => "undefined"

/-- Embedding of `updateOrder` (lines 128-163): re-fetch the record, replace the
`procard_payment_url` note attribute, union `procard_link_sent` into the
tag set, and PUT the result.  Returns what was written; the PUT call is
the returned event even when it throws. -/
def updateOrderEmbed (o : CreateOracle) (paymentUrl : String) :
    Except String (List String × List (String × String)) × List CEvent :=
  match o.fetchOrderRest with
  | .error e => (.error e, [])
  | .ok current =>
    let existing := match current with
      | some ordr => ordr.note_attributes
      | none => []
    let filtered := existing.filter (fun a => a.1 ≠ "procard_payment_url")
    let noteAttrs := filtered ++ [("procard_payment_url", paymentUrl)]
    let tagsStr := match current with
      | some ordr => ordr.tags
      | none => ""
    let nextTags := nextTagsFromString tagsStr ["procard_link_sent"]
    match o.putOrderErr with
    | some e => (.error e, [.updatedOrder nextTags noteAttrs])
    | none => (.ok (nextTags, noteAttrs), [.updatedOrder nextTags noteAttrs])

/-- The order-created route's `action`
(webhooks.orders_create.procard.js lines 172-277).  A `.error` result is
the uncaught missing-secret throw of `makeRequestSignature` (computed
before the try block); throws inside the try block are caught and
answered with 502 "Create payment link failed". -/
def createOrderAction (hmacHex : String → String → String) (secret : String)
    (env : CreateEnv) (o : CreateOracle) (topic : String) (p : Payload) :
    Except String (HttpResponse × List CEvent) :=
  if topic ≠ "ORDERS_CREATE" then .ok (⟨200, none⟩, [])
  else if !isManualPayment p.payment_gateway_names then .ok (⟨200, none⟩, [])
  else if env.dispatcherUrl = "" then
    .ok (⟨500, some "Missing PROCARD_DISPATCHER_URL"⟩, [])
  else if env.merchantId = "" then
    .ok (⟨500, some "Missing PROCARD_MERCHANT_ID"⟩, [])
  else
    let orderRef := if truthy p.id then jsToString p.id else ""
    let amount := getOrderTotal p
    let description := "Erina Home " ++ orderRef
    if env.callbackUrl = "" || env.approveUrl = "" || env.declineUrl = "" ||
        env.cancelUrl = "" then
      .ok (⟨500, some "Missing PROCARD_*_URL env vars"⟩, [])
    else
    match makeRequestSignature hmacHex secret env.merchantId orderRef
      (.str (normalizeAmount (.num amount))) "978" description with
    | .error e => .error e
    | .ok _ =>
      match o.dispatch with
      | .error _ => .ok (⟨502, some "Create payment link failed"⟩, [.dispatched])
      | .ok r =>
        if !r.ok then .ok (⟨502, some "Dispatcher error"⟩, [.dispatched])
        else if dispatchRejected r.json then .ok (⟨200, some "OK"⟩, [.dispatched])
        else
          let paymentUrl := dispatchUrl r.json
          let up := updateOrderEmbed o paymentUrl
          match up.1 with
          | .error _ =>
            .ok (⟨502, some "Create payment link failed"⟩, [.dispatched] ++ up.2)
          | .ok _ =>
            match o.sendInvoiceErr with
            | some _ =>
              .ok (⟨502, some "Create payment link failed"⟩, [.dispatched] ++ up.2)
            | none =>
              .ok (⟨200, none⟩, [.dispatched] ++ up.2 ++ [.sentInvoice])

/-! ### Specification-level predicates -/

/-- Per-order sentinel soundness: the shipping sentinel tag is present
only when a 2xx shipping submission happened for the order or a
submission was skipped for missing shipping fields (ghost fields). -/
def sentinelOk (ord : StoredOrder) : Prop :=
  "sent_to_postoffice" ∈ ord.tags → ord.shippedOnce = true ∨ ord.shipSkipped = true

/-- Store-wide sentinel soundness. -/
def TagGhostInv (st : Store) : Prop :=
  ∀ ord ∈ st.orders, sentinelOk ord

/-- A server that answers every POST with a redirect status carrying a
`Location` header. -/
def AlwaysRedirect (fetchf : Nat → String → HResponse) : Prop :=
  ∀ i u, isRedirectStatus (fetchf i u).status = true ∧ (fetchf i u).location ≠ none

/-! ### Lemmas: digit strings, stripping, parsing, round trip -/

theorem natDigitCharsAux_eq_digits {fuel n : Nat} (h : n ≤ fuel) :
    natDigitCharsAux fuel n = (Nat.digits 10 n).map digitChar := by
  induction fuel generalizing n with
  | zero =>
    interval_cases n
    simp [natDigitCharsAux]
  | succ fuel ih =>
    unfold natDigitCharsAux
    split
    · next h0 => subst h0; simp
    · next h0 =>
      rw [Nat.digits_def' (by norm_num : 1 < 10) (Nat.pos_of_ne_zero h0), List.map_cons,
        ih (by
          have := Nat.div_lt_self (Nat.pos_of_ne_zero h0) (by norm_num : 1 < 10)
          omega)]

theorem natDigitChars_eq_digits (n : Nat) :
    natDigitChars n = if n = 0 then ['0'] else ((Nat.digits 10 n).map digitChar).reverse := by
  unfold natDigitChars
  split
  · rfl
  · rw [natDigitCharsAux_eq_digits (Nat.le_refl n)]

/-- Value of a big-endian list of digit characters. -/

theorem digitVal_digitChar {d : Nat} (h : d < 10) : digitVal (digitChar d) = d := by
  interval_cases d <;> rfl

theorem isDigitCh_digitChar {d : Nat} (h : d < 10) : isDigitCh (digitChar d) = true := by
  interval_cases d <;> rfl

theorem isDigitCh_elim {c : Char} (h : isDigitCh c = true) :
    c = '0' ∨ c = '1' ∨ c = '2' ∨ c = '3' ∨ c = '4' ∨
    c = '5' ∨ c = '6' ∨ c = '7' ∨ c = '8' ∨ c = '9' := by
  simp only [isDigitCh, Bool.or_eq_true, decide_eq_true_eq] at h
  tauto

theorem not_wsp_of_digit {c : Char} (h : isDigitCh c = true) : isWspCh c = false := by
  rcases isDigitCh_elim h with h | h | h | h | h | h | h | h | h | h <;> subst h <;> rfl

theorem natDigitChars_ne_nil (n : Nat) : natDigitChars n ≠ [] := by
  rw [natDigitChars_eq_digits]
  split
  · simp
  · next h =>
    intro hc
    have : Nat.digits 10 n ≠ [] := Nat.digits_ne_nil_iff_ne_zero.mpr h
    simp only [List.reverse_eq_nil_iff, List.map_eq_nil_iff] at hc
    exact this hc

theorem mem_natDigitChars_digit {n : Nat} {c : Char} (h : c ∈ natDigitChars n) :
    isDigitCh c = true := by
  rw [natDigitChars_eq_digits] at h
  split at h
  · simp only [List.mem_singleton] at h
    subst h; rfl
  · simp only [List.mem_reverse, List.mem_map] at h
    obtain ⟨d, hd, rfl⟩ := h
    exact isDigitCh_digitChar (Nat.digits_lt_base (by norm_num) hd)

theorem foldl_digits_shift (cs : List Char) (a : Nat) :
    cs.foldl (fun a c => 10 * a + digitVal c) a =
      a * 10 ^ cs.length + valueOfDigits cs := by
  induction cs generalizing a with
  | nil => simp [valueOfDigits]
  | cons c cs ih =>
    simp only [List.foldl_cons, valueOfDigits, List.length_cons]
    rw [ih (10 * a + digitVal c), ih (10 * 0 + digitVal c)]
    ring

theorem valueOfDigits_cons (c : Char) (cs : List Char) :
    valueOfDigits (c :: cs) = digitVal c * 10 ^ cs.length + valueOfDigits cs := by
  have h := foldl_digits_shift cs (10 * 0 + digitVal c)
  simpa [valueOfDigits, List.foldl_cons] using h

theorem valueOfDigits_append (l r : List Char) :
    valueOfDigits (l ++ r) = valueOfDigits l * 10 ^ r.length + valueOfDigits r := by
  have h := foldl_digits_shift r (valueOfDigits l)
  simpa [valueOfDigits, List.foldl_append] using h

theorem valueOfDigits_zero_cons (cs : List Char) :
    valueOfDigits ('0' :: cs) = valueOfDigits cs := by
  rw [valueOfDigits_cons, show digitVal '0' = 0 from rfl]
  simp

theorem valueOfDigits_replicate_zero (j : Nat) (cs : List Char) :
    valueOfDigits (List.replicate j '0' ++ cs) = valueOfDigits cs := by
  induction j with
  | zero => rfl
  | succ j ih =>
    rw [List.replicate_succ, List.cons_append, valueOfDigits_zero_cons, ih]

theorem valueOfDigits_natDigitChars (n : Nat) :
    valueOfDigits (natDigitChars n) = n := by
  rw [natDigitChars_eq_digits]
  split
  · next h => subst h; rfl
  · next h =>
    have hlt : ∀ d ∈ Nat.digits 10 n, d < 10 := fun d hd =>
      Nat.digits_lt_base (by norm_num) hd
    simp only [valueOfDigits]
    rw [List.foldl_reverse]
    have : ∀ (l : List Nat), (∀ d ∈ l, d < 10) →
        List.foldr (fun c a => 10 * a + digitVal c) 0 (l.map digitChar) =
          Nat.ofDigits 10 l := by
      intro l
      induction l with
      | nil => intro _; rfl
      | cons d ds ih =>
        intro hl
        simp only [List.map_cons, List.foldr_cons]
        rw [ih (fun x hx => hl x (List.mem_cons_of_mem _ hx)),
          digitVal_digitChar (hl d (List.mem_cons_self _ _)), Nat.ofDigits_cons]
        ring
    rw [this _ hlt, Nat.ofDigits_digits]

/-! ### Canonical decimal form and printing (`Number.prototype.toString` model) -/

/-- Fuel-driven stripping of factors of ten (structural recursion so that
the kernel can evaluate it).  `stripTensAux fuel m = (a, k)` with
`m = a * 10^k` and `10 ∤ a` whenever `m ≠ 0` and `m ≤ fuel`. -/

theorem stripTensAux_props {fuel m : Nat} (hm : m ≠ 0) (hf : m ≤ fuel) :
    (stripTensAux fuel m).1 ≠ 0 ∧ (stripTensAux fuel m).1 % 10 ≠ 0 := by
  induction fuel generalizing m with
  | zero => omega
  | succ fuel ih =>
    unfold stripTensAux
    split
    · next hc =>
      simp only [Bool.and_eq_true, decide_eq_true_eq, bne_iff_ne] at hc
      have hdiv := Nat.div_lt_self (Nat.pos_of_ne_zero hm) (by norm_num : 1 < 10)
      have hne : m / 10 ≠ 0 := by omega
      exact ih hne (by omega)
    · next hc =>
      simp only [Bool.and_eq_true, decide_eq_true_eq, bne_iff_ne, not_and_or, not_ne_iff] at hc
      rcases hc with hc | hc
      · exact ⟨hm, hc⟩
      · exact absurd hc hm

theorem stripTens_props {m : Nat} (hm : m ≠ 0) :
    (stripTens m).1 ≠ 0 ∧ (stripTens m).1 % 10 ≠ 0 :=
  stripTensAux_props hm (Nat.le_refl m)

theorem stripTensAux_mul_pow {a k fuel : Nat} (ha : a ≠ 0) (hd : a % 10 ≠ 0)
    (hk : k ≤ fuel) : stripTensAux fuel (a * 10 ^ k) = (a, k) := by
  induction k generalizing fuel with
  | zero =>
    cases fuel with
    | zero => simp [stripTensAux]
    | succ fuel =>
      unfold stripTensAux
      split
      · next hc =>
        simp only [Bool.and_eq_true, decide_eq_true_eq, bne_iff_ne] at hc
        rw [pow_zero, Nat.mul_one] at hc
        exact absurd hc.1 hd
      · rw [pow_zero, Nat.mul_one]
  | succ k ih =>
    cases fuel with
    | zero => omega
    | succ fuel =>
      unfold stripTensAux
      have hmod : a * 10 ^ (k + 1) % 10 = 0 := by
        rw [pow_succ, ← Nat.mul_assoc]
        exact Nat.mul_mod_left _ 10
      have hne : a * 10 ^ (k + 1) ≠ 0 := by positivity
      split
      · next hc =>
        have hdiv : a * 10 ^ (k + 1) / 10 = a * 10 ^ k := by
          rw [pow_succ, ← Nat.mul_assoc]
          exact Nat.mul_div_cancel _ (by norm_num)
        rw [hdiv, ih (by omega)]
      · next hc =>
        simp only [Bool.and_eq_true, decide_eq_true_eq, bne_iff_ne, not_and_or, not_ne_iff] at hc
        rcases hc with hc | hc
        · exact absurd hmod hc
        · exact absurd hc hne

theorem stripTens_mul_pow {a k : Nat} (ha : a ≠ 0) (hd : a % 10 ≠ 0) :
    stripTens (a * 10 ^ k) = (a, k) := by
  unfold stripTens
  refine stripTensAux_mul_pow ha hd (Nat.le_of_lt ?_)
  calc k < 10 ^ k := Nat.lt_pow_self (by norm_num) k
    _ ≤ a * 10 ^ k := Nat.le_mul_of_pos_left _ (Nat.pos_of_ne_zero ha)

theorem stripTens_self {a : Nat} (ha : a ≠ 0) (hd : a % 10 ≠ 0) :
    stripTens a = (a, 0) := by
  have := stripTens_mul_pow (k := 0) ha hd
  rwa [pow_zero, Nat.mul_one] at this

theorem dropWhile_forall_not {p : Char → Bool} {l : List Char}
    (h : ∀ c ∈ l, p c = false) : l.dropWhile p = l := by
  induction l with
  | nil => rfl
  | cons c cs ih =>
    rw [List.dropWhile_cons, h c (List.mem_cons_self _ _)]
    simp

theorem trimChars_eq_self {l : List Char} (h : ∀ c ∈ l, isWspCh c = false) :
    trimChars l = l := by
  unfold trimChars
  rw [dropWhile_forall_not h, dropWhile_forall_not (by
    intro c hc
    exact h c (List.mem_reverse.mp hc)), List.reverse_reverse]

theorem takeDigits_append {ds r : List Char} (hd : ∀ c ∈ ds, isDigitCh c = true)
    (hr : ∀ c r', r = c :: r' → isDigitCh c = false) :
    takeDigits (ds ++ r) = (ds, r) := by
  induction ds with
  | nil =>
    cases r with
    | nil => rfl
    | cons c r' =>
      simp only [List.nil_append, takeDigits, hr c r' rfl]
      simp
  | cons c cs ih =>
    simp only [List.cons_append, takeDigits, hd c (List.mem_cons_self _ _),
      if_true, List.append_eq]
    rw [ih (fun x hx => hd x (List.mem_cons_of_mem _ hx))]

theorem takeDigits_all {ds : List Char} (hd : ∀ c ∈ ds, isDigitCh c = true) :
    takeDigits ds = (ds, []) := by
  have := takeDigits_append (r := []) hd (by intro c r' h; cases h)
  rwa [List.append_nil] at this

theorem digit_ne_signs {c : Char} (h : isDigitCh c = true) :
    c ≠ '-' ∧ c ≠ '+' ∧ c ≠ '.' := by
  rcases isDigitCh_elim h with h | h | h | h | h | h | h | h | h | h <;> subst h <;>
    exact ⟨by decide, by decide, by decide⟩

theorem readSign_no_sign {c : Char} {r : List Char} (h1 : c ≠ '-') (h2 : c ≠ '+') :
    readSign (c :: r) = (false, c :: r) := by
  simp [readSign, h1, h2]

theorem parseNumChars_digits (neg : Bool) {ds : List Char}
    (hds : ∀ c ∈ ds, isDigitCh c = true) (hne : ds ≠ []) :
    parseNumChars ((if neg then ['-'] else []) ++ ds) =
      .finite (if neg then -(valueOfDigits ds : Int) else (valueOfDigits ds : Int)) 0 := by
  obtain ⟨d, tl, rfl⟩ := List.exists_cons_of_ne_nil hne
  have hdd := hds d (List.mem_cons_self _ _)
  have hw : ∀ c ∈ (if neg then ['-'] else []) ++ d :: tl, isWspCh c = false := by
    intro c hc
    rcases List.mem_append.mp hc with hc | hc
    · cases neg with
      | true => simp only [if_true, List.mem_singleton] at hc; subst hc; rfl
      | false => simp at hc
    · exact not_wsp_of_digit (hds c hc)
  have htd := takeDigits_all hds
  cases neg with
  | true =>
    have ht : trimChars ('-' :: d :: tl) = '-' :: d :: tl := trimChars_eq_self hw
    have hsg : readSign ('-' :: d :: tl) = (true, d :: tl) := by simp [readSign]
    show parseNumChars ('-' :: d :: tl) = .finite (-(valueOfDigits (d :: tl) : Int)) 0
    rw [parseNumChars, ht]
    simp only [List.isEmpty_cons, Bool.false_eq_true, if_false, hsg, htd, readFrac, readExp]
    simp only [Bool.false_and, Bool.false_eq_true, if_false, ite_true, List.append_nil,
      List.length_nil, Nat.cast_zero, Int.sub_zero]
  | false =>
    have ht : trimChars (d :: tl) = d :: tl := trimChars_eq_self hw
    have hsg := readSign_no_sign (digit_ne_signs hdd).1 (digit_ne_signs hdd).2.1 (r := tl)
    show parseNumChars (d :: tl) = .finite ((valueOfDigits (d :: tl) : Int)) 0
    rw [parseNumChars, ht]
    simp only [List.isEmpty_cons, Bool.false_eq_true, if_false, hsg, htd, readFrac, readExp]
    simp only [Bool.false_and, Bool.false_eq_true, if_false, ite_false, List.append_nil,
      List.length_nil, Nat.cast_zero, Int.sub_zero]

theorem parseNumChars_pointed (neg : Bool) {i f : List Char}
    (hi : ∀ c ∈ i, isDigitCh c = true) (hf : ∀ c ∈ f, isDigitCh c = true)
    (hne : i ≠ [] ∨ f ≠ []) :
    parseNumChars ((if neg then ['-'] else []) ++ i ++ '.' :: f) =
      .finite (if neg then -(valueOfDigits (i ++ f) : Int) else (valueOfDigits (i ++ f) : Int))
        (0 - (f.length : Int)) := by
  have hw : ∀ c ∈ (if neg then ['-'] else []) ++ i ++ '.' :: f, isWspCh c = false := by
    intro c hc
    rcases List.mem_append.mp hc with hc | hc
    · rcases List.mem_append.mp hc with hc | hc
      · cases neg with
        | true => simp only [if_true, List.mem_singleton] at hc; subst hc; rfl
        | false => simp at hc
      · exact not_wsp_of_digit (hi c hc)
    · rcases List.mem_cons.mp hc with rfl | hc
      · rfl
      · exact not_wsp_of_digit (hf c hc)
  have htd : takeDigits (i ++ '.' :: f) = (i, '.' :: f) :=
    takeDigits_append hi (by
      intro c r' h
      cases h
      rfl)
  have htf := takeDigits_all hf
  have hfr : readFrac ('.' :: f) = takeDigits f := by simp [readFrac]
  have hguard : (i.isEmpty && f.isEmpty) = false := by
    rcases hne with hne | hne <;> cases i <;> cases f <;> simp_all
  have hie : (i ++ '.' :: f).isEmpty = false := by cases i <;> simp
  cases neg with
  | true =>
    have ht : trimChars ('-' :: (i ++ '.' :: f)) = '-' :: (i ++ '.' :: f) := by
      refine trimChars_eq_self ?_
      intro c hc
      exact hw c (by simpa using hc)
    have hsg : readSign ('-' :: (i ++ '.' :: f)) = (true, i ++ '.' :: f) := by simp [readSign]
    show parseNumChars ('-' :: (i ++ '.' :: f)) =
      .finite (-(valueOfDigits (i ++ f) : Int)) (0 - (f.length : Int))
    rw [parseNumChars, ht]
    simp only [List.isEmpty_cons, Bool.false_eq_true, if_false, hsg, htd, hfr, htf,
      readExp, hguard, ite_true]
  | false =>
    have ht : trimChars (i ++ '.' :: f) = i ++ '.' :: f := by
      refine trimChars_eq_self ?_
      intro c hc
      exact hw c (by simpa using hc)
    have hsg : readSign (i ++ '.' :: f) = (false, i ++ '.' :: f) := by
      cases i with
      | nil => exact readSign_no_sign (by decide) (by decide)
      | cons c tl =>
        have h3 := digit_ne_signs (hi c (List.mem_cons_self _ _))
        exact readSign_no_sign h3.1 h3.2.1
    show parseNumChars (i ++ '.' :: f) =
      .finite ((valueOfDigits (i ++ f) : Int)) (0 - (f.length : Int))
    rw [parseNumChars, ht]
    simp only [hie, Bool.false_eq_true, if_false, hsg, htd, hfr, htf,
      readExp, hguard, ite_false]

theorem canonPair_of_strip {a k : Nat} (ha : a ≠ 0) (hd : a % 10 ≠ 0) (e : Int) (neg : Bool) :
    canonPair (if neg then -((a * 10 ^ k : Nat) : Int) else ((a * 10 ^ k : Nat) : Int)) e =
      (if neg then -(a : Int) else (a : Int), e + (k : Int)) := by
  have hN0 : a * 10 ^ k ≠ 0 := by positivity
  have hNpos : (0 : Int) < ((a * 10 ^ k : Nat) : Int) := by
    exact_mod_cast Nat.pos_of_ne_zero hN0
  have hstrip : stripTens (a * 10 ^ k) = (a, k) := stripTens_mul_pow ha hd
  cases neg with
  | true =>
    show canonPair (-((a * 10 ^ k : Nat) : Int)) e = (-(a : Int), e + (k : Int))
    unfold canonPair
    rw [if_neg (by omega)]
    simp only [Int.natAbs_neg, Int.natAbs_ofNat, hstrip,
      if_pos (by omega : -((a * 10 ^ k : Nat) : Int) < 0)]
  | false =>
    show canonPair ((a * 10 ^ k : Nat) : Int) e = ((a : Int), e + (k : Int))
    unfold canonPair
    rw [if_neg (by omega)]
    simp only [Int.natAbs_ofNat, hstrip,
      if_neg (by omega : ¬((a * 10 ^ k : Nat) : Int) < 0)]

theorem canonPair_canonical {a : Nat} (ha : a ≠ 0) (hd : a % 10 ≠ 0) (e : Int) (neg : Bool) :
    canonPair (if neg then -(a : Int) else (a : Int)) e =
      (if neg then -(a : Int) else (a : Int), e) := by
  have h := canonPair_of_strip ha hd e neg (k := 0)
  rw [pow_zero, Nat.mul_one] at h
  rw [h, Nat.cast_zero, Int.add_zero]

theorem parse_printDecCore {a : Nat} (ha : a ≠ 0) (hd : a % 10 ≠ 0) (F : Int) (neg : Bool) :
    ∃ M E : Int,
      parseNumChars ((if neg then ['-'] else []) ++ printDecCore a F) = .finite M E ∧
      canonPair M E = (if neg then -(a : Int) else (a : Int), F) := by
  unfold printDecCore
  by_cases hF : 0 ≤ F
  · rw [if_pos hF]
    have hds : ∀ c ∈ natDigitChars (a * 10 ^ F.toNat), isDigitCh c = true :=
      fun c hc => mem_natDigitChars_digit hc
    have hp := parseNumChars_digits neg hds (natDigitChars_ne_nil _)
    rw [valueOfDigits_natDigitChars] at hp
    refine ⟨_, _, hp, ?_⟩
    rw [canonPair_of_strip ha hd 0 neg]
    rw [show (0 : Int) + (F.toNat : Int) = F by
      rw [Int.toNat_of_nonneg hF]
      ring]
  · rw [if_neg hF]
    have hds : ∀ c ∈ natDigitChars a, isDigitCh c = true :=
      fun c hc => mem_natDigitChars_digit hc
    have hvds := valueOfDigits_natDigitChars a
    have hFk : (((-F).toNat : Nat) : Int) = -F := Int.toNat_of_nonneg (by omega)
    by_cases hkL : (-F).toNat < (natDigitChars a).length
    · rw [if_pos hkL]
      have hi : ∀ c ∈ (natDigitChars a).take ((natDigitChars a).length - (-F).toNat),
          isDigitCh c = true := fun c hc => hds c (List.take_subset _ _ hc)
      have hf : ∀ c ∈ (natDigitChars a).drop ((natDigitChars a).length - (-F).toNat),
          isDigitCh c = true := fun c hc => hds c (List.drop_subset _ _ hc)
      have hlenf : ((natDigitChars a).drop ((natDigitChars a).length - (-F).toNat)).length
          = (-F).toNat := by
        rw [List.length_drop]
        omega
      have hne : (natDigitChars a).take ((natDigitChars a).length - (-F).toNat) ≠ [] ∨
          (natDigitChars a).drop ((natDigitChars a).length - (-F).toNat) ≠ [] := by
        right
        intro h
        rw [h] at hlenf
        simp at hlenf
        omega
      have hp := parseNumChars_pointed neg hi hf hne
      rw [List.take_append_drop, hvds, hlenf] at hp
      rw [List.append_assoc] at hp
      refine ⟨_, _, hp, ?_⟩
      rw [canonPair_canonical ha hd _ neg]
      rw [show (0 : Int) - (((-F).toNat : Nat) : Int) = F by omega]
    · rw [if_neg hkL]
      have hi : ∀ c ∈ ['0'], isDigitCh c = true := by
        intro c hc
        simp only [List.mem_singleton] at hc
        subst hc
        rfl
      have hf : ∀ c ∈ List.replicate ((-F).toNat - (natDigitChars a).length) '0' ++
          natDigitChars a, isDigitCh c = true := by
        intro c hc
        rcases List.mem_append.mp hc with hc | hc
        · rw [(List.eq_of_mem_replicate hc : c = '0')]
          rfl
        · exact hds c hc
      have hp := parseNumChars_pointed neg hi hf (Or.inl (by simp))
      have hval : valueOfDigits (['0'] ++
          (List.replicate ((-F).toNat - (natDigitChars a).length) '0' ++ natDigitChars a)) = a := by
        rw [List.singleton_append, valueOfDigits_zero_cons, valueOfDigits_replicate_zero, hvds]
      have hlen : (List.replicate ((-F).toNat - (natDigitChars a).length) '0' ++
          natDigitChars a).length = (-F).toNat := by
        rw [List.length_append, List.length_replicate]
        omega
      rw [hval, hlen, List.append_assoc, List.singleton_append] at hp
      refine ⟨_, _, hp, ?_⟩
      rw [canonPair_canonical ha hd _ neg]
      rw [show (0 : Int) - (((-F).toNat : Nat) : Int) = F by omega]

theorem parse_numToChars (m e : Int) :
    ∃ M E : Int, parseNumChars (numToChars m e) = .finite M E ∧
      canonPair M E = canonPair m e := by
  by_cases hm : m = 0
  · subst hm
    exact ⟨0, 0, rfl, rfl⟩
  · have hna : m.natAbs ≠ 0 := Int.natAbs_ne_zero.mpr hm
    obtain ⟨ha0, had⟩ := stripTens_props hna
    have hcanon : canonPair m e =
        (if m < 0 then -(((stripTens m.natAbs).1 : Nat) : Int) else ((stripTens m.natAbs).1 : Int),
          e + ((stripTens m.natAbs).2 : Int)) := by
      unfold canonPair
      rw [if_neg hm]
    have hapos : (0 : Int) < ((stripTens m.natAbs).1 : Int) := by
      exact_mod_cast Nat.pos_of_ne_zero ha0
    by_cases hneg : m < 0
    · have hA : canonPair m e =
          (-(((stripTens m.natAbs).1 : Nat) : Int), e + ((stripTens m.natAbs).2 : Int)) := by
        rw [hcanon, if_pos hneg]
      have hnum : numToChars m e =
          ['-'] ++ printDecCore (stripTens m.natAbs).1 (e + ((stripTens m.natAbs).2 : Int)) := by
        unfold numToChars
        rw [hA]
        simp only [Int.natAbs_neg, Int.natAbs_ofNat]
        rw [if_pos (by omega : -(((stripTens m.natAbs).1 : Nat) : Int) < 0)]
      obtain ⟨M, E, hp, hc⟩ :=
        parse_printDecCore ha0 had (e + ((stripTens m.natAbs).2 : Int)) true
      refine ⟨M, E, ?_, ?_⟩
      · rw [hnum]
        simpa using hp
      · rw [hc, hA]
        simp
    · have hA : canonPair m e =
          ((((stripTens m.natAbs).1 : Nat) : Int), e + ((stripTens m.natAbs).2 : Int)) := by
        rw [hcanon, if_neg hneg]
      have hnum : numToChars m e =
          [] ++ printDecCore (stripTens m.natAbs).1 (e + ((stripTens m.natAbs).2 : Int)) := by
        unfold numToChars
        rw [hA]
        simp only [Int.natAbs_ofNat]
        rw [if_neg (by omega : ¬(((stripTens m.natAbs).1 : Nat) : Int) < 0)]
      obtain ⟨M, E, hp, hc⟩ :=
        parse_printDecCore ha0 had (e + ((stripTens m.natAbs).2 : Int)) false
      refine ⟨M, E, ?_, ?_⟩
      · rw [hnum]
        simpa using hp
      · rw [hc, hA]
        simp

theorem numToChars_congr {m e m' e' : Int} (h : canonPair m e = canonPair m' e') :
    numToChars m e = numToChars m' e' := by
  unfold numToChars
  rw [h]

theorem normalizeAmount_idem (v : JSValue) :
    normalizeAmount (.str (normalizeAmount v)) = normalizeAmount v := by
  unfold normalizeAmount
  cases hv : jsNumber v with
  | nonFinite => rfl
  | finite m e =>
    show (match jsNumber (.str (jsNumToString (.finite m e))) with
      | JSNum.nonFinite => "0"
      | JSNum.finite m' e' => jsNumToString (.finite m' e')) = jsNumToString (.finite m e)
    obtain ⟨M, E, hp, hc⟩ := parse_numToChars m e
    have hjs : jsNumber (.str (jsNumToString (.finite m e))) = .finite M E := by
      show parseNumChars (jsNumToString (.finite m e)).data = _
      show parseNumChars (numToChars m e) = _
      exact hp
    rw [hjs]
    show jsNumToString (.finite M E) = jsNumToString (.finite m e)
    show (⟨numToChars M E⟩ : String) = (⟨numToChars m e⟩ : String)
    rw [numToChars_congr hc]

/-! ### Claim theorems -/

/-- C9: amount normalization is idempotent on its own outputs —
`normalizeAmount (normalizeAmount v) = normalizeAmount v` for every
value — and in particular the literal 1500.00 (the value 1500, in
either decimal representation, or as the string "1500.00") normalizes
to "1500" while the non-numeric "abc" normalizes to "0". -/
theorem c9_normalize_idempotent :
    (∀ v : JSValue, normalizeAmount (.str (normalizeAmount v)) = normalizeAmount v) ∧
    normalizeAmount (.num (.finite 150000 (-2))) = "1500" ∧
    normalizeAmount (.num (.finite 1500 0)) = "1500" ∧
    normalizeAmount (.str "1500.00") = "1500" ∧
    normalizeAmount (.str "abc") = "0" :=
  ⟨normalizeAmount_idem, by decide, by decide, by decide, by decide⟩

/-- C1: with a nonempty secret, verifyCallbackSignature answers true
exactly when all four string fields are nonempty and the supplied
signature equals the HMAC digest (abstract crypto parameter) of the
`;`-joined string merchant;reference;normalized-amount;currency, and it
answers false whenever any of the four fields coerces to empty. -/
theorem c1_verify_iff (hmacHex : String → String → String) (secret : String)
    (hsec : secret ≠ "") (b : CallbackBody) :
    (verifyCallbackSignature hmacHex secret b = .ok true ↔
      (b.merchantAccount ≠ "" ∧ b.orderReference ≠ "" ∧ b.currency ≠ "" ∧
        b.merchantSignature ≠ "" ∧
        hmacHex secret (signString b) = b.merchantSignature)) ∧
    ((b.merchantAccount = "" ∨ b.orderReference = "" ∨ b.currency = "" ∨
        b.merchantSignature = "") →
      verifyCallbackSignature hmacHex secret b = .ok false) := by
  unfold verifyCallbackSignature
  rw [if_neg hsec]
  by_cases h1 : b.merchantAccount = "" <;> by_cases h2 : b.orderReference = "" <;>
    by_cases h3 : b.currency = "" <;> by_cases h4 : b.merchantSignature = "" <;>
    simp [h1, h2, h3, h4, beq_iff_eq]

/-- Witness for C1 at a concrete secret, body and digest function. -/
theorem c1_verify_iff_witness :
    verifyCallbackSignature (fun s m => s ++ "#" ++ m) "k"
      ⟨"M1", "1001", .str "49.9", "EUR", "k#M1;1001;49.9;EUR", "Approved"⟩ = .ok true :=
  (c1_verify_iff (fun s m => s ++ "#" ++ m) "k" (by decide)
    ⟨"M1", "1001", .str "49.9", "EUR", "k#M1;1001;49.9;EUR", "Approved"⟩).1.mpr
    ⟨by decide, by decide, by decide, by decide, by decide⟩

/-- C10: the amount field alone never forces rejection: with the other
fields nonempty and a signature computed over the normalized amount,
verification succeeds for every amount value; and an absent, null,
empty-string or non-numeric amount normalizes to the string "0". -/
theorem c10_amount_never_rejects (hmacHex : String → String → String) (secret : String)
    (hsec : secret ≠ "") (ma orf cur ts : String) (amount : JSValue)
    (hma : ma ≠ "") (horf : orf ≠ "") (hcur : cur ≠ "")
    (hsig : hmacHex secret (ma ++ ";" ++ orf ++ ";" ++ normalizeAmount amount ++ ";" ++ cur)
      ≠ "") :
    verifyCallbackSignature hmacHex secret
      ⟨ma, orf, amount, cur,
        hmacHex secret (ma ++ ";" ++ orf ++ ";" ++ normalizeAmount amount ++ ";" ++ cur),
        ts⟩ = .ok true ∧
    normalizeAmount .undef = "0" ∧ normalizeAmount .null = "0" ∧
    normalizeAmount (.str "") = "0" ∧ normalizeAmount (.str "abc") = "0" := by
  refine ⟨?_, by decide, by decide, by decide, by decide⟩
  unfold verifyCallbackSignature
  rw [if_neg hsec]
  rw [if_neg (by simp [hma, horf, hcur, hsig])]
  have : signString ⟨ma, orf, amount, cur,
      hmacHex secret (ma ++ ";" ++ orf ++ ";" ++ normalizeAmount amount ++ ";" ++ cur),
      ts⟩ = ma ++ ";" ++ orf ++ ";" ++ normalizeAmount amount ++ ";" ++ cur := rfl
  rw [this]
  simp

/-- Witness for C10 at a concrete secret, fields and digest function. -/
theorem c10_amount_never_rejects_witness :
    verifyCallbackSignature (fun s m => s ++ "#" ++ m) "k"
      ⟨"M1", "1001", .undef, "EUR", "k#M1;1001;0;EUR", "Approved"⟩ = .ok true ∧
    normalizeAmount .undef = "0" := by
  have h := c10_amount_never_rejects (fun s m => s ++ "#" ++ m) "k" (by decide)
    "M1" "1001" "EUR" "Approved" .undef (by decide) (by decide) (by decide) (by decide)
  exact ⟨h.1, h.2.1⟩

/-- C2 counterexample: a parsed callback body whose orderReference is
empty is answered 401 "Invalid signature", not 400 — signature
verification runs first and rejects the empty reference. -/
theorem c2_counterexample :
    runCallback (fun _ _ => "h") "k" ⟨"b", "t"⟩
      ⟨none, none, none, .ok none, .ok 200, none⟩
      ⟨[]⟩ (some ⟨"M1", "", .str "10", "EUR", "h", "Approved"⟩) =
      (⟨[]⟩, .ok ⟨401, some "Invalid signature"⟩, []) := by
  rfl

/-- C2 amended: for every parsed body whose orderReference coerces to
the empty string (and a configured secret), the handler responds 401 —
the 400 "Missing orderReference" branch is unreachable because
verification already rejects an empty order reference. -/
theorem c2_amended (hmacHex : String → String → String) (secret : String)
    (hsec : secret ≠ "") (env : PostEnv) (o : ReconcilerOracle) (st : Store)
    (b : CallbackBody) (href : b.orderReference = "") :
    runCallback hmacHex secret env o st (some b) =
      (st, .ok ⟨401, some "Invalid signature"⟩, []) := by
  have hver : verifyCallbackSignature hmacHex secret b = .ok false := by
    unfold verifyCallbackSignature
    rw [if_neg hsec, if_pos (by simp [href])]
  unfold runCallback
  simp only [hver]

/-- Witness for C2's amended theorem at a concrete input. -/
theorem c2_amended_witness :
    runCallback (fun _ _ => "h") "k" ⟨"b", "t"⟩
      ⟨none, none, none, .ok none, .ok 200, none⟩
      ⟨[]⟩ (some ⟨"M1", "", .str "10", "EUR", "h", "Approved"⟩) =
      (⟨[]⟩, .ok ⟨401, some "Invalid signature"⟩, []) :=
  c2_amended (fun _ _ => "h") "k" (by decide) ⟨"b", "t"⟩
    ⟨none, none, none, .ok none, .ok 200, none⟩ ⟨[]⟩
    ⟨"M1", "", .str "10", "EUR", "h", "Approved"⟩ (by decide)

/-! ### Redirect helper lemmas -/

theorem redirectLoop_ok (fetchf : Nat → String → HResponse)
    (resolve : String → String → String) (maxR : Nat) :
    ∀ fuel attempt url trace, attempt + fuel = maxR + 1 → attempt ≤ maxR →
      ∃ r t, redirectLoop fetchf resolve maxR fuel attempt url trace = .ok (r, t) := by
  intro fuel
  induction fuel with
  | zero =>
    intro attempt url trace h1 h2
    omega
  | succ fuel ih =>
    intro attempt url trace h1 h2
    simp only [redirectLoop]
    rw [if_pos h2]
    by_cases hred : isRedirectStatus (fetchf attempt url).status = true
    · simp only [hred, if_true]
      cases hloc : (fetchf attempt url).location with
      | none =>
        simp only [hloc]
        exact ⟨_, _, rfl⟩
      | some loc =>
        simp only [hloc]
        by_cases hend : (attempt == maxR) = true
        · rw [if_pos hend]
          exact ⟨_, _, rfl⟩
        · rw [if_neg hend]
          refine ih (attempt + 1) _ _ (by omega) ?_
          simp only [beq_iff_eq] at hend
          omega
    · rw [if_neg hred]
      exact ⟨_, _, rfl⟩

/-- C7: the helper always returns a response from inside its loop; the
trailing "Too many redirects" throw after the loop is unreachable for
every transport behaviour, URL and bound. -/
theorem c7_loop_always_returns (fetchf : Nat → String → HResponse)
    (resolve : String → String → String) (url : String) (maxRedirects : Nat) :
    ∃ r t, postJsonWithRedirects fetchf resolve url maxRedirects = .ok (r, t) :=
  redirectLoop_ok fetchf resolve maxRedirects (maxRedirects + 1) 0 url []
    (by omega) (by omega)

theorem redirectLoop_always (fetchf : Nat → String → HResponse)
    (resolve : String → String → String) (maxR : Nat) (hred : AlwaysRedirect fetchf) :
    ∀ fuel attempt url trace, attempt + fuel = maxR + 1 → attempt ≤ maxR →
      ∃ t lastu, redirectLoop fetchf resolve maxR fuel attempt url trace =
          .ok (fetchf maxR lastu, t) ∧
        t.length = trace.length + (maxR + 1 - attempt) ∧ t.getLast? = some lastu := by
  intro fuel
  induction fuel with
  | zero =>
    intro attempt url trace h1 h2
    omega
  | succ fuel ih =>
    intro attempt url trace h1 h2
    obtain ⟨hr, hl⟩ := hred attempt url
    obtain ⟨loc, hloc⟩ := Option.ne_none_iff_exists'.mp hl
    simp only [redirectLoop]
    rw [if_pos h2]
    simp only [hr, if_true, hloc]
    by_cases hend : attempt = maxR
    · subst hend
      rw [if_pos (by simp)]
      refine ⟨trace ++ [url], url, rfl, ?_, List.getLast?_concat _⟩
      simp
    · rw [if_neg (by simp [hend])]
      obtain ⟨t, lastu, heq, hlen, hlast⟩ :=
        ih (attempt + 1) (resolve loc url) (trace ++ [url]) (by omega) (by omega)
      refine ⟨t, lastu, heq, ?_, hlast⟩
      rw [hlen]
      simp only [List.length_append, List.length_cons, List.length_nil]
      omega

theorem redirectLoop_length_le (fetchf : Nat → String → HResponse)
    (resolve : String → String → String) (maxR : Nat) :
    ∀ fuel attempt url trace r t,
      redirectLoop fetchf resolve maxR fuel attempt url trace = .ok (r, t) →
      t.length ≤ trace.length + (maxR + 1 - attempt) := by
  intro fuel
  induction fuel with
  | zero =>
    intro attempt url trace r t h
    cases h
  | succ fuel ih =>
    intro attempt url trace r t h
    simp only [redirectLoop] at h
    by_cases h2 : attempt ≤ maxR
    · rw [if_pos h2] at h
      by_cases hred : isRedirectStatus (fetchf attempt url).status = true
      · simp only [hred, if_true] at h
        cases hloc : (fetchf attempt url).location with
        | none =>
          simp only [hloc] at h
          cases h
          simp only [List.length_append, List.length_cons, List.length_nil]
          omega
        | some loc =>
          simp only [hloc] at h
          by_cases hend : (attempt == maxR) = true
          · rw [if_pos hend] at h
            cases h
            simp only [List.length_append, List.length_cons, List.length_nil]
            omega
          · rw [if_neg hend] at h
            refine le_trans (ih _ _ _ _ _ h) ?_
            simp only [List.length_append, List.length_cons, List.length_nil]
            omega
      · rw [if_neg hred] at h
        cases h
        simp only [List.length_append, List.length_cons, List.length_nil]
        omega
    · rw [if_neg h2] at h
      cases h

/-- C6: against a server that always answers a redirect status with a
Location, the helper performs exactly maxRedirects + 1 POSTs and
returns the final redirect response (the response of the last attempt);
and in general the number of POSTs of any returned run is bounded by
maxRedirects + 1. -/
theorem c6_redirect_bound (fetchf : Nat → String → HResponse)
    (resolve : String → String → String) (url : String) (maxRedirects : Nat) :
    (AlwaysRedirect fetchf →
      ∃ r t, postJsonWithRedirects fetchf resolve url maxRedirects = .ok (r, t) ∧
        t.length = maxRedirects + 1 ∧ isRedirectStatus r.status = true ∧
        ∃ lastu, t.getLast? = some lastu ∧ r = fetchf maxRedirects lastu) ∧
    (∀ r t, postJsonWithRedirects fetchf resolve url maxRedirects = .ok (r, t) →
      t.length ≤ maxRedirects + 1) := by
  constructor
  · intro hred
    obtain ⟨t, lastu, heq, hlen, hlast⟩ :=
      redirectLoop_always fetchf resolve maxRedirects hred (maxRedirects + 1) 0 url []
        (by omega) (by omega)
    refine ⟨_, t, heq, ?_, (hred maxRedirects lastu).1, lastu, hlast, rfl⟩
    simpa using hlen
  · intro r t h
    simpa using redirectLoop_length_le fetchf resolve maxRedirects _ _ _ _ _ _ h

/-- Witness for C6 against a concrete always-302 server. -/
theorem c6_redirect_bound_witness :
    ∃ r t, postJsonWithRedirects (fun _ _ => ⟨302, some "next"⟩) (fun l _ => l) "start" 3 =
        .ok (r, t) ∧ t.length = 3 + 1 ∧ isRedirectStatus r.status = true ∧
      ∃ lastu, t.getLast? = some lastu ∧
        r = (fun _ _ => (⟨302, some "next"⟩ : HResponse)) 3 lastu :=
  (c6_redirect_bound (fun _ _ => ⟨302, some "next"⟩) (fun l _ => l) "start" 3).1
    (fun _ _ =>
      ⟨show isRedirectStatus 302 = true by decide,
        show (some "next" : Option String) ≠ none by decide⟩)

/-! ### Tag-set lemmas -/

theorem mem_jsSetDedup {l : List String} {x : String} : x ∈ jsSetDedup l ↔ x ∈ l := by
  induction l with
  | nil => simp [jsSetDedup]
  | cons a as ih =>
    simp only [jsSetDedup, List.mem_cons, List.mem_filter]
    constructor
    · rintro (rfl | ⟨h1, _⟩)
      · exact Or.inl rfl
      · exact Or.inr (ih.mp h1)
    · rintro (rfl | h)
      · exact Or.inl rfl
      · by_cases hx : x = a
        · exact Or.inl hx
        · exact Or.inr ⟨ih.mpr h, by simp [hx]⟩

theorem nodup_jsSetDedup (l : List String) : (jsSetDedup l).Nodup := by
  induction l with
  | nil => simp [jsSetDedup]
  | cons a as ih =>
    simp only [jsSetDedup, List.nodup_cons]
    refine ⟨fun hmem => ?_, ih.filter _⟩
    rw [List.mem_filter] at hmem
    simp at hmem

/-- C8: the tag list written back by updateOrder is exactly the set
union of the parsed current tags and the new tags: every current tag is
preserved, every new tag is present, there are no duplicates, and
nothing else appears. -/
theorem c8_addTags_union (tags : String) (newTags : List String) :
    (∀ t ∈ parseTagList tags, t ∈ nextTagsFromString tags newTags) ∧
    (∀ t ∈ newTags, t ∈ nextTagsFromString tags newTags) ∧
    (nextTagsFromString tags newTags).Nodup ∧
    (∀ t ∈ nextTagsFromString tags newTags, t ∈ parseTagList tags ∨ t ∈ newTags) := by
  unfold nextTagsFromString
  refine ⟨?_, ?_, nodup_jsSetDedup _, ?_⟩
  · intro t ht
    exact mem_jsSetDedup.mpr (List.mem_append.mpr (Or.inl ht))
  · intro t ht
    exact mem_jsSetDedup.mpr (List.mem_append.mpr (Or.inr ht))
  · intro t ht
    exact List.mem_append.mp (mem_jsSetDedup.mp ht)

/-- Witness for C8 at concrete tags. -/
theorem c8_addTags_union_witness :
    "procard_link_sent" ∈ nextTagsFromString "vip, gift" ["procard_link_sent"] :=
  (c8_addTags_union "vip, gift" ["procard_link_sent"]).2.1 "procard_link_sent" (by decide)

/-- C5: a verified Approved callback for an order that is already paid
and already carries the shipping sentinel answers 200 "OK", skips
mark-paid and the shipping submission, performs no outbound side-effect
calls, and leaves the order store unchanged. -/
theorem c5_redelivery_noop (hmacHex : String → String → String) (secret : String)
    (env : PostEnv) (o : ReconcilerOracle) (st : Store) (b : CallbackBody)
    (ord : StoredOrder)
    (hver : verifyCallbackSignature hmacHex secret b = .ok true)
    (happ : b.transactionStatus = "Approved")
    (hadmin : o.adminErr = none) (hfinderr : o.findErr = none)
    (hfind : findOrder st b.orderReference = some ord) (hgid : ord.gid ≠ "")
    (hpaid : asciiUpper ord.displayFinancialStatus = "PAID")
    (hsent : "sent_to_postoffice" ∈ ord.tags) :
    runCallback hmacHex secret env o st (some b) =
      (st, .ok ⟨200, some "OK"⟩, []) := by
  have hre : b.orderReference ≠ "" := by
    intro h
    unfold verifyCallbackSignature at hver
    split at hver
    · cases hver
    · rw [if_pos (by simp [h])] at hver
      cases hver
  have hsent2 : ord.tags.contains "sent_to_postoffice" = true := by
    simpa using hsent
  unfold runCallback
  simp only [hver]
  rw [if_neg hre, if_neg (by simp [happ])]
  simp only [hadmin, hfinderr, hfind]
  rw [if_neg hgid]
  have hp : (asciiUpper ord.displayFinancialStatus == "PAID") = true := by
    simp [hpaid]
  simp only [hp, if_true]
  unfold reconcileShipping
  rw [if_pos hsent2]

/-- Witness for C5 at a concrete redelivered callback. -/
theorem c5_redelivery_noop_witness :
    runCallback (fun _ _ => "h") "k" ⟨"b", "t"⟩
      ⟨none, none, none, .ok none, .ok 200, none⟩
      ⟨[⟨"42", "g", "PAID", ["sent_to_postoffice"], true, false⟩]⟩
      (some ⟨"M", "42", .str "10", "EUR", "h", "Approved"⟩) =
      (⟨[⟨"42", "g", "PAID", ["sent_to_postoffice"], true, false⟩]⟩,
        .ok ⟨200, some "OK"⟩, []) :=
  c5_redelivery_noop (fun _ _ => "h") "k" ⟨"b", "t"⟩
    ⟨none, none, none, .ok none, .ok 200, none⟩
    ⟨[⟨"42", "g", "PAID", ["sent_to_postoffice"], true, false⟩]⟩
    ⟨"M", "42", .str "10", "EUR", "h", "Approved"⟩
    ⟨"42", "g", "PAID", ["sent_to_postoffice"], true, false⟩
    rfl rfl rfl rfl rfl (by decide) rfl (by decide)

/-- C3 counterexample: an eligible order-created event whose dispatcher
call returns a non-2xx transport response is answered 502 "Dispatcher
error" — not acknowledged with a neutral 200. -/
theorem c3_counterexample :
    createOrderAction (fun _ _ => "h") "k" ⟨"d", "m", "cb", "ap", "de", "ca"⟩
      ⟨.ok ⟨false, none⟩, .ok none, none, none⟩ "ORDERS_CREATE"
      ⟨.str "7001", .str "#7001", ["manual"], .num (.finite 10 0), .undef, .undef, .undef⟩ =
      .ok (⟨502, some "Dispatcher error"⟩, [.dispatched]) := by
  rfl

/-- C3 amended: in webhooks.orders_create.procard.js, a non-2xx
dispatcher transport response yields 502 (so the event is redelivered),
while a 2xx transport response whose body is rejected — null JSON,
absent or non-zero result code, or absent or empty url — is
acknowledged with 200 "OK" and no further outbound side-effect call
(the duplicate implementation in src/unnamed/part_002 answers 502 in
the rejected-body cases as well). -/
theorem c3_amended (hmacHex : String → String → String) (secret : String)
    (env : CreateEnv) (o : CreateOracle) (p : Payload)
    (hsec : secret ≠ "")
    (hman : isManualPayment p.payment_gateway_names = true)
    (hd : env.dispatcherUrl ≠ "") (hm : env.merchantId ≠ "")
    (hcb : env.callbackUrl ≠ "") (hap : env.approveUrl ≠ "")
    (hde : env.declineUrl ≠ "") (hca : env.cancelUrl ≠ "") :
    (∀ r, o.dispatch = .ok r → r.ok = false →
      createOrderAction hmacHex secret env o "ORDERS_CREATE" p =
        .ok (⟨502, some "Dispatcher error"⟩, [.dispatched])) ∧
    (∀ r, o.dispatch = .ok r → r.ok = true → dispatchRejected r.json = true →
      createOrderAction hmacHex secret env o "ORDERS_CREATE" p =
        .ok (⟨200, some "OK"⟩, [.dispatched])) := by
  have hurl : (env.callbackUrl = "" || env.approveUrl = "" || env.declineUrl = "" ||
      env.cancelUrl = "") = false := by
    simp [hcb, hap, hde, hca]
  constructor
  · intro r hr hok
    unfold createOrderAction
    rw [if_neg (by simp), if_neg (by simp [hman]), if_neg hd, if_neg hm]
    unfold makeRequestSignature
    simp only [hurl, Bool.false_eq_true, if_false, if_neg hsec, hr, hok,
      Bool.not_false, if_true]
  · intro r hr hok hrej
    unfold createOrderAction
    rw [if_neg (by simp), if_neg (by simp [hman]), if_neg hd, if_neg hm]
    unfold makeRequestSignature
    simp only [hurl, Bool.false_eq_true, if_false, if_neg hsec, hr, hok,
      Bool.not_true, hrej, if_true]

/-- Witness for C3's amended theorem: a 2xx dispatcher response with a
non-zero result code is acknowledged 200 "OK". -/
theorem c3_amended_witness :
    createOrderAction (fun _ _ => "h") "k" ⟨"d", "m", "cb", "ap", "de", "ca"⟩
      ⟨.ok ⟨true, some ⟨some 1, some "u"⟩⟩, .ok none, none, none⟩ "ORDERS_CREATE"
      ⟨.str "7001", .str "#7001", ["manual"], .num (.finite 10 0), .undef, .undef, .undef⟩ =
      .ok (⟨200, some "OK"⟩, [.dispatched]) :=
  (c3_amended (fun _ _ => "h") "k" ⟨"d", "m", "cb", "ap", "de", "ca"⟩
    ⟨.ok ⟨true, some ⟨some 1, some "u"⟩⟩, .ok none, none, none⟩
    ⟨.str "7001", .str "#7001", ["manual"], .num (.finite 10 0), .undef, .undef, .undef⟩
    (by decide) (by decide) (by decide) (by decide) (by decide) (by decide)
    (by decide) (by decide)).2 ⟨true, some ⟨some 1, some "u"⟩⟩ rfl rfl (by decide)

theorem sendToPostOffice_cases (env : PostEnv) (o : ReconcilerOracle) (fo : FullOrder) :
    (∃ e, sendToPostOffice env o fo = (.error e, [])) ∨
    sendToPostOffice env o fo = (.ok (), [.shipSkipped]) ∨
    (∃ e, sendToPostOffice env o fo = (.error e, [.shipPost false])) ∨
    sendToPostOffice env o fo = (.ok (), [.shipPost true]) := by
  unfold sendToPostOffice
  split
  · exact Or.inl ⟨_, rfl⟩
  · split
    · exact Or.inl ⟨_, rfl⟩
    · split
      · exact Or.inr (Or.inl rfl)
      · split
        · exact Or.inr (Or.inl rfl)
        · split
          · exact Or.inr (Or.inr (Or.inl ⟨_, rfl⟩))
          · split
            · exact Or.inr (Or.inr (Or.inr rfl))
            · exact Or.inr (Or.inr (Or.inl ⟨_, rfl⟩))

theorem mem_setOrder {st : Store} {g : String} {f : StoredOrder → StoredOrder}
    {ord' : StoredOrder} (h : ord' ∈ (setOrder st g f).orders) :
    ∃ ord ∈ st.orders, ord' = if ord.gid == g then f ord else ord := by
  unfold setOrder at h
  obtain ⟨ord, hm, heq⟩ := List.mem_map.mp h
  exact ⟨ord, hm, heq.symm⟩

theorem TagGhostInv_setOrder {st : Store} {g : String} {f : StoredOrder → StoredOrder}
    (h : TagGhostInv st) (hf : ∀ ord ∈ st.orders, sentinelOk ord → sentinelOk (f ord)) :
    TagGhostInv (setOrder st g f) := by
  intro ord' h'
  obtain ⟨ord, hm, heq⟩ := mem_setOrder h'
  subst heq
  split
  · exact hf ord hm (h ord hm)
  · exact h ord hm

theorem TagGhostInv_setTags {st : Store} {g : String} {nt : List String}
    (h : TagGhostInv st)
    (hg : ∀ ord ∈ st.orders, (ord.gid == g) = true →
      ord.shippedOnce = true ∨ ord.shipSkipped = true) :
    TagGhostInv (setOrder st g (fun x => { x with tags := nt })) := by
  intro ord' h'
  obtain ⟨ord, hm, heq⟩ := mem_setOrder h'
  subst heq
  split
  · next hgid => exact fun _ => hg ord hm hgid
  · exact h ord hm

theorem setOrder_ghost_shipped {st : Store} {g : String} :
    ∀ ord' ∈ (setOrder st g (fun x => { x with shippedOnce := true })).orders,
      (ord'.gid == g) = true → ord'.shippedOnce = true ∨ ord'.shipSkipped = true := by
  intro ord' h' hg
  obtain ⟨ord, hm, heq⟩ := mem_setOrder h'
  subst heq
  by_cases hcond : (ord.gid == g) = true
  · rw [if_pos hcond]
    exact Or.inl rfl
  · rw [if_neg hcond] at hg ⊢
    exact absurd hg hcond

theorem setOrder_ghost_skipped {st : Store} {g : String} :
    ∀ ord' ∈ (setOrder st g (fun x => { x with shipSkipped := true })).orders,
      (ord'.gid == g) = true → ord'.shippedOnce = true ∨ ord'.shipSkipped = true := by
  intro ord' h' hg
  obtain ⟨ord, hm, heq⟩ := mem_setOrder h'
  subst heq
  by_cases hcond : (ord.gid == g) = true
  · rw [if_pos hcond]
    exact Or.inr rfl
  · rw [if_neg hcond] at hg ⊢
    exact absurd hg hcond

theorem reconcileShipping_inv (env : PostEnv) (o : ReconcilerOracle) (ord : StoredOrder)
    (tags : List String) (alreadySent : Bool) (st : Store) (ev : List Event)
    (h : TagGhostInv st) :
    TagGhostInv (reconcileShipping env o ord tags alreadySent st ev).1 := by
  unfold reconcileShipping
  split
  · exact h
  · split
    · exact h
    · exact h
    · next fo heq =>
      have e1 : (([] : List Event).contains (Event.shipPost true)) = false := rfl
      have e2 : (([] : List Event).contains Event.shipSkipped) = false := rfl
      have e3 : ([Event.shipSkipped].contains (Event.shipPost true)) = false := rfl
      have e4 : ([Event.shipSkipped].contains Event.shipSkipped) = true := rfl
      have e5 : ([Event.shipPost false].contains (Event.shipPost true)) = false := rfl
      have e6 : ([Event.shipPost false].contains Event.shipSkipped) = false := rfl
      have e7 : ([Event.shipPost true].contains (Event.shipPost true)) = true := rfl
      have e8 : ([Event.shipPost true].contains Event.shipSkipped) = false := rfl
      rcases sendToPostOffice_cases env o fo with ⟨e, hsp⟩ | hsp | ⟨e, hsp⟩ | hsp <;>
        simp only [hsp, e1, e2, e3, e4, e5, e6, e7, e8, if_false, if_true,
          Bool.false_eq_true]
      · exact h
      · split
        · exact TagGhostInv_setOrder h (fun ordx hm hs _ => Or.inr rfl)
        · exact TagGhostInv_setTags (TagGhostInv_setOrder h (fun ordx hm hs _ => Or.inr rfl))
            setOrder_ghost_skipped
      · exact h
      · split
        · exact TagGhostInv_setOrder h (fun ordx hm hs _ => Or.inl rfl)
        · exact TagGhostInv_setTags (TagGhostInv_setOrder h (fun ordx hm hs _ => Or.inl rfl))
            setOrder_ghost_shipped

theorem unique_split {α : Type} {A pre post : List α} {w w' : α}
    (h : A ++ [w] = pre ++ w' :: post) (hA : w' ∉ A) :
    pre = A ∧ w' = w ∧ post = [] := by
  induction A generalizing pre with
  | nil =>
    cases pre with
    | nil =>
      rw [List.nil_append, List.nil_append] at h
      injection h with h1 h2
      exact ⟨rfl, h1.symm, h2.symm⟩
    | cons p ps =>
      rw [List.nil_append, List.cons_append] at h
      injection h with h1 h2
      exact absurd h2.symm (by simp)
  | cons a A ih =>
    cases pre with
    | nil =>
      rw [List.cons_append, List.nil_append] at h
      injection h with h1 h2
      exact absurd (by rw [← h1]; exact List.mem_cons_self _ _) hA
    | cons p ps =>
      rw [List.cons_append, List.cons_append] at h
      injection h with h1 h2
      subst h1
      obtain ⟨h3, h4, h5⟩ := ih h2 (fun hm => hA (List.mem_cons_of_mem _ hm))
      exact ⟨by rw [h3], h4, h5⟩

theorem no_write_no_split {T pre post : List Event} {g : String} {ts : List String}
    (h : T = pre ++ Event.writeTags g ts :: post)
    (hT : ∀ g' ts', Event.writeTags g' ts' ∉ T) : False := by
  refine hT g ts ?_
  rw [h]
  exact List.mem_append.mpr (Or.inr (List.mem_cons_self _ _))

theorem reconcileShipping_trace (env : PostEnv) (o : ReconcilerOracle) (ord : StoredOrder)
    (tags : List String) (alreadySent : Bool) (st : Store) (ev : List Event)
    (hev : ∀ g ts, Event.writeTags g ts ∉ ev) :
    ∀ pre g ts post, (reconcileShipping env o ord tags alreadySent st ev).2.2 =
        pre ++ Event.writeTags g ts :: post →
      ∃ mid, pre = mid ++ [Event.shipPost true] ∨ pre = mid ++ [Event.shipSkipped] := by
  have hevf : ∀ g ts, Event.writeTags g ts ∉ ev ++ [Event.fetchFullOrder ord.gid] := by
    intro g ts hm
    rcases List.mem_append.mp hm with hm | hm
    · exact hev g ts hm
    · simp at hm
  intro pre g ts post h
  unfold reconcileShipping at h
  split at h
  · exact (no_write_no_split h hev).elim
  · split at h
    · exact (no_write_no_split h hevf).elim
    · exact (no_write_no_split h hevf).elim
    · next fo heq =>
      rcases sendToPostOffice_cases env o fo with ⟨e, hsp⟩ | hsp | ⟨e, hsp⟩ | hsp <;>
        simp only [hsp] at h
      · refine (no_write_no_split h ?_).elim
        intro g' ts' hm
        rcases List.mem_append.mp hm with hm | hm
        · exact hevf g' ts' hm
        · simp at hm
      · split at h
        all_goals
          obtain ⟨hpre, hw, hpost⟩ := unique_split h (by
            intro hm
            rcases List.mem_append.mp hm with hm | hm
            · exact hevf g ts hm
            · simp at hm)
        all_goals exact ⟨ev ++ [Event.fetchFullOrder ord.gid], Or.inr hpre⟩
      · refine (no_write_no_split h ?_).elim
        intro g' ts' hm
        rcases List.mem_append.mp hm with hm | hm
        · exact hevf g' ts' hm
        · simp at hm
      · split at h
        all_goals
          obtain ⟨hpre, hw, hpost⟩ := unique_split h (by
            intro hm
            rcases List.mem_append.mp hm with hm | hm
            · exact hevf g ts hm
            · simp at hm)
        all_goals exact ⟨ev ++ [Event.fetchFullOrder ord.gid], Or.inl hpre⟩

theorem runCallback_inv (hmacHex : String → String → String) (secret : String)
    (env : PostEnv) (o : ReconcilerOracle) (st : Store) (body? : Option CallbackBody)
    (hinv : TagGhostInv st) :
    TagGhostInv (runCallback hmacHex secret env o st body?).1 := by
  unfold runCallback
  simp only []
  repeat' split
  all_goals first
    | exact hinv
    | exact reconcileShipping_inv _ _ _ _ _ _ _ hinv
    | exact reconcileShipping_inv _ _ _ _ _ _ _
        (TagGhostInv_setOrder hinv (fun ordx hm hs => hs))

theorem runCallback_trace (hmacHex : String → String → String) (secret : String)
    (env : PostEnv) (o : ReconcilerOracle) (st : Store) (body? : Option CallbackBody) :
    ∀ pre g ts post,
      (runCallback hmacHex secret env o st body?).2.2 = pre ++ Event.writeTags g ts :: post →
      ∃ mid, pre = mid ++ [Event.shipPost true] ∨ pre = mid ++ [Event.shipSkipped] := by
  intro pre g ts post h
  unfold runCallback at h
  simp only [] at h
  repeat' split at h
  all_goals first
    | exact reconcileShipping_trace _ _ _ _ _ _ _
        (by intro g' ts' hm; simp at hm) pre g ts post h
    | (refine (no_write_no_split h ?_).elim
       intro g' ts' hm
       simp at hm)

/-- C4 counterexample: for an order whose fetched full record lacks a
shipping address, the reconciler skips the shipping POST entirely
(trace shows shipSkipped and no shipPost) yet still writes the
"sent_to_postoffice" sentinel, leaving shippedOnce false — so the
sentinel does not imply a 2xx shipping submission ever happened. -/
theorem c4_counterexample :
    runCallback (fun _ _ => "h") "k" ⟨"b", "t"⟩
      ⟨none, none, none, .ok (some ⟨none⟩), .ok 200, none⟩
      ⟨[⟨"42", "g", "PAID", [], false, false⟩]⟩
      (some ⟨"M", "42", .str "10", "EUR", "h", "Approved"⟩) =
      (⟨[⟨"42", "g", "PAID", ["sent_to_postoffice", "paid_procard"], false, true⟩]⟩,
        .ok ⟨200, some "OK"⟩,
        [.fetchFullOrder "g", .shipSkipped,
          .writeTags "g" ["sent_to_postoffice", "paid_procard"]]) := by
  rfl

/-- C4 amended: in every reconciler run from a store where the sentinel
is sound, the sentinel stays sound in the weaker sense that it implies
either a 2xx shipping submission happened at least once or a submission
was skipped because the order's record lacked required shipping fields;
and tags are written only immediately after a 2xx shipping POST or such
a skip. -/
theorem c4_sentinel_invariant (hmacHex : String → String → String) (secret : String)
    (env : PostEnv) (o : ReconcilerOracle) (st : Store) (body? : Option CallbackBody)
    (hinv : TagGhostInv st) :
    TagGhostInv (runCallback hmacHex secret env o st body?).1 ∧
    (∀ pre g ts post,
      (runCallback hmacHex secret env o st body?).2.2 =
        pre ++ Event.writeTags g ts :: post →
      ∃ mid, pre = mid ++ [Event.shipPost true] ∨ pre = mid ++ [Event.shipSkipped]) :=
  ⟨runCallback_inv hmacHex secret env o st body? hinv,
    runCallback_trace hmacHex secret env o st body?⟩

/-- Witness for C4's amended theorem: a fresh-store run that writes the
sentinel right after a successful 2xx shipping POST. -/
theorem c4_sentinel_invariant_witness :
    TagGhostInv (runCallback (fun _ _ => "h") "k" ⟨"b", "t"⟩
      ⟨none, none, none, .ok (some ⟨some ⟨"a1", "Prishtina", "E", "H"⟩⟩), .ok 200, none⟩
      ⟨[⟨"42", "g", "PAID", [], false, false⟩]⟩
      (some ⟨"M", "42", .str "10", "EUR", "h", "Approved"⟩)).1 :=
  (c4_sentinel_invariant (fun _ _ => "h") "k" ⟨"b", "t"⟩
    ⟨none, none, none, .ok (some ⟨some ⟨"a1", "Prishtina", "E", "H"⟩⟩), .ok 200, none⟩
    ⟨[⟨"42", "g", "PAID", [], false, false⟩]⟩
    (some ⟨"M", "42", .str "10", "EUR", "h", "Approved"⟩)
    (by intro ordx hm hs; simp at hm; rw [hm] at hs; simp at hs)).1

end Erina